import Mathlib

/-!
Verification development for the Shake Shack conversational ordering assistant
(repository sources: order.py, menu.py, llm.py, database.py).

The Python sources are embedded shallowly:

* dictionaries for menu items and order lines become structures;
* the Streamlit session state (order list, total price, sidebar flag)
  becomes an explicit `OrderState` threaded through the operations;
* monetary values (Python floats holding prices) become rationals, so the
  total-price bookkeeping is exact;
* Python string operations (`lower`, `strip`, `in`, `split`) are mirrored by
  executable structural helpers on `List Char` (the inputs of interest are
  ASCII, where `Char.toLower` agrees with Python `str.lower`);
* external collaborators (the MongoDB `save_order`, the OpenAI key lookup,
  the LLM completion call) become explicit parameters: an `Option String`
  for a save result or an API key, and an `Except PyExc String` for a
  completion call that can raise.

Definitions keep the Python names wherever Lean allows it.
-/

/-- Python substring prefix step: does the second list start with the
first list. -/
def listIsPrefix : List Char → List Char → Bool
  | [], _ => true
  | _ :: _, [] => false
  | a :: as, b :: bs => a == b && listIsPrefix as bs

/-- Occurrence of `n` as a contiguous sublist of the second argument,
mirroring Python substring containment. -/
def listSub (n : List Char) : List Char → Bool
  | [] => listIsPrefix n []
  | c :: t => listIsPrefix n (c :: t) || listSub n t

/-- Python `a in b` on strings: `a` occurs as a substring of `b`. -/
def pyIn (a b : String) : Bool := listSub a.data b.data

/-- Python whitespace class for `str.split()`, `str.strip()` and the regex
`\s` (space, tab, newline, carriage return, vertical tab, form feed). -/
def wsChar (c : Char) : Bool :=
  c == ' ' || c == '\t' || c == '\n' || c == '\r' || c == Char.ofNat 11 || c == Char.ofNat 12

/-- Python `str.lower()` character by character (ASCII). -/
def pyLower (l : List Char) : List Char := l.map Char.toLower

/-- Python `str.lower()` as a string operation. -/
def lowerS (s : String) : String := String.mk (pyLower s.data)

/-- Python `str.strip()`: drop whitespace from both ends. -/
def pyStrip (l : List Char) : List Char :=
  ((l.dropWhile wsChar).reverse.dropWhile wsChar).reverse

/-- Python `str.strip()` as a string operation. -/
def stripS (s : String) : String := String.mk (pyStrip s.data)

/-- Accumulating splitter behind `pyWords`: `cur` holds the characters of
the word currently being read, in reverse. -/
def pyWordsAux : List Char → List Char → List (List Char)
  | cur, [] => if cur = [] then [] else [cur.reverse]
  | cur, c :: t =>
    if wsChar c then
      if cur = [] then pyWordsAux [] t else cur.reverse :: pyWordsAux [] t
    else pyWordsAux (c :: cur) t

/-- Python `s.split()`: maximal runs of non-whitespace characters. -/
def pyWords (l : List Char) : List (List Char) := pyWordsAux [] l

/-- Python `set(s.split())`, modelled as a duplicate-free list of words:
element order is irrelevant because all uses go through membership,
`setEqL` and length. -/
def wordSet (l : List Char) : List (List Char) := (pyWords l).dedup

/-- Python `==` on sets represented as duplicate-free lists: mutual
containment. -/
def setEqL (a b : List (List Char)) : Bool := a.all (· ∈ b) && b.all (· ∈ a)

/-- Single apostrophe character, used to build the user-facing message
strings of the source without putting the character in a literal. -/
def apos : String := String.singleton (Char.ofNat 39)

/-- A Python truthiness test for an optional string (None and the empty
string are falsy). -/
def pyTruthyStr : Option String → Bool
  | none => false
  | some s => s ≠ ""

/-- Menu item document as stored in database.py (name, price, calories,
category); price is modelled exactly as a rational. -/
structure MenuItem where
  name : String
  price : ℚ
  calories : ℤ
  category : String
deriving DecidableEq, Repr

/-- FALLBACK_MENU from database.py: the built-in reference menu used when
the MongoDB collaborator is unavailable. -/
def FALLBACK_MENU : List MenuItem := [
  ⟨"ShackBurger", 699/100, 500, "Burgers"⟩,
  ⟨"Cheeseburger", 649/100, 440, "Burgers"⟩,
  ⟨"Hamburger", 649/100, 370, "Burgers"⟩,
  ⟨"Avocado Bacon Burger", 949/100, 610, "Burgers"⟩,
  ⟨"SmokeShack", 849/100, 570, "Burgers"⟩,
  ⟨"Bacon Cheeseburger", 1149/100, 760, "Burgers"⟩,
  ⟨"Fries", 399/100, 470, "Fries"⟩,
  ⟨"Vanilla Shake", 599/100, 680, "Milkshakes"⟩,
  ⟨"Chocolate Shake", 599/100, 750, "Milkshakes"⟩,
  ⟨"Strawberry Shake", 599/100, 690, "Milkshakes"⟩,
  ⟨"Topo Chico", 349/100, 0, "Drinks"⟩]

/-- Score assigned to one menu item by the scoring loop of
menu.py find_menu_item: `item_lower` is the lowered item name and `q` the
lowered and stripped search string, both as character lists.  Substring
containment of the query in the item scores 80, of the item in the query
70; equality of the common word set with the query word set scores 60,
with the item word set 50; any other non-empty overlap scores 40 scaled by
the overlap fraction; otherwise 0. -/
def matchScore (item_lower q : List Char) : ℚ :=
  if listSub q item_lower then 80
  else if listSub item_lower q then 70
  else
    let item_words := wordSet item_lower
    let name_words := wordSet q
    let common_words := item_words.filter (· ∈ name_words)
    if setEqL common_words name_words then 60
    else if setEqL common_words item_words then 50
    else if common_words ≠ [] then
      40 * (common_words.length : ℚ) / (max item_words.length name_words.length : ℚ)
    else 0

/-- Best-match tracking loop of menu.py find_menu_item: walks the item
list keeping the current best item and best score, replacing them whenever
an item scores strictly higher. -/
def scanBest (q : List Char) : List MenuItem → Option MenuItem × ℚ → Option MenuItem × ℚ
  | [], acc => acc
  | it :: rest, (best, bestScore) =>
    let s := matchScore (pyLower it.name.data) q
    scanBest q rest (if s > bestScore then (some it, s) else (best, bestScore))

/-- find_menu_item from menu.py: empty input returns None; an exact
case-insensitive match returns early; otherwise the scoring loop runs over
all items with the threshold (default 20) as the initial best score. -/
def find_menu_item (all_items : List MenuItem) (item_name : String)
    (threshold : ℚ := 20) : Option MenuItem :=
  if item_name = "" then none
  else
    let q := pyStrip (pyLower item_name.data)
    match all_items.find? (fun it => pyLower it.name.data == q) with
    | some it => some it
    | none => (scanBest q all_items (none, threshold)).1

/-- One line of the session order list in order.py: the dictionary
appended by add_to_order. -/
structure OrderLine where
  name : String
  price : ℚ
  category : String
  quantity : ℤ
deriving DecidableEq, Repr

/-- The session state touched by order.py: the order list, the running
total_price, and the update_sidebar flag. -/
structure OrderState where
  order : List OrderLine
  total_price : ℚ
  update_sidebar : Bool
deriving DecidableEq, Repr

/-- Session state right after initialize_order_state on a fresh session:
empty order, zero total. -/
def initState : OrderState := ⟨[], 0, false⟩

/-- Decomposition of the Python pattern `for i, item in enumerate(lst): if
p(item): ...use and stop...`: returns the elements before the first hit,
the first element satisfying `p`, and the elements after it. -/
def splitFirstMatch (p : OrderLine → Bool) :
    List OrderLine → Option (List OrderLine × OrderLine × List OrderLine)
  | [] => none
  | l :: rest =>
    if p l then some ([], l, rest)
    else (splitFirstMatch p rest).map (fun x => (l :: x.1, x.2.1, x.2.2))

/-- Sum of price times quantity over a list of order lines. -/
def linesTotal (lines : List OrderLine) : ℚ :=
  (lines.map (fun l => l.price * (l.quantity : ℚ))).sum

/-- Dollar rendering used by the f-string `${x:.2f}` interpolations of
order.py (the claims never inspect these renderings; amounts are rounded
to cents). -/
def fmtMoney (q : ℚ) : String :=
  let c := (round (q * 100) : ℤ)
  let n := c.natAbs
  let sign := if c < 0 then "-" else ""
  sign ++ "$" ++ toString (n / 100) ++ "." ++
    (if n % 100 < 10 then "0" else "") ++ toString (n % 100)

/-- add_to_order from order.py: a falsy menu item returns False and
leaves the state alone; otherwise the first order line with the same
lowercased name has its quantity incremented, or a new line is appended,
and total_price grows by the menu price times the quantity. -/
def add_to_order (menu_item : Option MenuItem) (quantity : ℤ) (s : OrderState) :
    Bool × OrderState :=
  match menu_item with
  | none => (false, s)
  | some m =>
    match splitFirstMatch (fun l => pyLower l.name.data == pyLower m.name.data) s.order with
    | some (pre, l, post) =>
      (true, ⟨pre ++ { l with quantity := l.quantity + quantity } :: post,
        s.total_price + m.price * (quantity : ℚ), true⟩)
    | none =>
      (true, ⟨s.order ++ [⟨m.name, m.price, m.category, quantity⟩],
        s.total_price + m.price * (quantity : ℚ), true⟩)

/-- Line-lookup predicate shared by update_order_quantity and
remove_from_order: `item_name.lower() in item["name"].lower()`. -/
def lineMatches (item_name : String) (l : OrderLine) : Bool :=
  listSub (pyLower item_name.data) (pyLower l.name.data)

/-- Not-found reply shared by update_order_quantity and remove_from_order:
the f-string `I couldn't find '{item_name}' in your current order.` -/
def couldNotFindMsg (item_name : String) : String :=
  "I couldn" ++ apos ++ "t find " ++ apos ++ item_name ++ apos ++
    " in your current order."

/-- Removal confirmation built inside update_order_quantity. -/
def updRemovedMsg (name : String) (total : ℚ) : String :=
  "**I" ++ apos ++ "ve removed " ++ name ++ " from your order.**  \n  \n**Your total is now " ++
    fmtMoney total ++ "**"

/-- Update confirmation built inside update_order_quantity. -/
def updUpdatedMsg (nq : ℤ) (name : String) (lineTotal total : ℚ) : String :=
  "**I" ++ apos ++ "ve updated your order:**  \n- Now " ++ toString nq ++ "x " ++ name ++
    " — " ++ fmtMoney lineTotal ++ "  \n  \n**Your total is now " ++ fmtMoney total ++ "**"

/-- update_order_quantity from order.py: the first line whose lowered
name contains the lowered item_name is either removed (new quantity at most
zero, total decremented by its prior contribution) or set to the new
quantity (total adjusted by the delta); with no matching line the state is
untouched and the not-found message returned. -/
def update_order_quantity (item_name : String) (new_quantity : ℤ) (s : OrderState) :
    String × OrderState :=
  match splitFirstMatch (lineMatches item_name) s.order with
  | none => (couldNotFindMsg item_name, s)
  | some (pre, l, post) =>
    if new_quantity ≤ 0 then
      let total := s.total_price - l.price * (l.quantity : ℚ)
      (updRemovedMsg l.name total, ⟨pre ++ post, total, true⟩)
    else
      let total := s.total_price + l.price * ((new_quantity : ℚ) - (l.quantity : ℚ))
      (updUpdatedMsg new_quantity l.name (l.price * (new_quantity : ℚ)) total,
        ⟨pre ++ { l with quantity := new_quantity } :: post, total, true⟩)

/-- Removal confirmation built inside remove_from_order. -/
def remRemovedMsg (qty : ℤ) (name : String) (total : ℚ) : String :=
  "**Removed from your order:**  \n- " ++ (if qty > 1 then toString qty ++ "x " else "") ++
    name ++ "  \n  \n**Your total is now " ++ fmtMoney total ++ "**"

/-- remove_from_order from order.py: pops the first line whose lowered
name contains the lowered item_name and decrements the total by its full
contribution; otherwise returns the not-found message unchanged. -/
def remove_from_order (item_name : String) (s : OrderState) : String × OrderState :=
  match splitFirstMatch (lineMatches item_name) s.order with
  | none => (couldNotFindMsg item_name, s)
  | some (pre, l, post) =>
    let total := s.total_price - l.price * (l.quantity : ℚ)
    (remRemovedMsg l.quantity l.name total, ⟨pre ++ post, total, true⟩)

/-- clear_order from order.py. -/
def clear_order (_s : OrderState) : String × OrderState :=
  ("Your order has been cleared.", ⟨[], 0, true⟩)

/-- finalize_order from order.py, with the database save_order
collaborator modelled by its result: None is the failure sentinel, a
string is the inserted-order id (stringified ObjectId).  An empty order is
rejected; a truthy id clears the order; otherwise the state is kept. -/
def finalize_order (save_result : Option String) (s : OrderState) : String × OrderState :=
  if s.order = [] then ("Cannot finalize an empty order.", s)
  else if pyTruthyStr save_result then
    ("Thank you for your order! Your order ID is: " ++ save_result.getD "",
      (clear_order s).2)
  else
    ("Sorry, there was a problem saving your order. Please try again.", s)

/-- Order-mutating operations of order.py, for stating invariants over
call sequences. -/
inductive Op where
  | add (mi : Option MenuItem) (q : ℤ)
  | upd (nm : String) (q : ℤ)
  | rem (nm : String)
  | clear
deriving Repr

/-- State effect of one operation (the returned message or flag is
discarded). -/
def applyOp (s : OrderState) : Op → OrderState
  | .add mi q => (add_to_order mi q s).2
  | .upd nm q => (update_order_quantity nm q s).2
  | .rem nm => (remove_from_order nm s).2
  | .clear => (clear_order s).2

/-- State after a sequence of operations. -/
def runOps (ops : List Op) (s : OrderState) : OrderState := ops.foldl applyOp s

/-- Well-formed call in the sense of claim C1: an add is given a real menu
item whose price is determined by its lowercased name via `priceOf`, and a
quantity of at least 1; other calls are unrestricted. -/
def opOk (priceOf : String → ℚ) : Op → Bool
  | .add none _ => false
  | .add (some m) q => m.price == priceOf (lowerS m.name) && decide (1 ≤ q)
  | _ => true

/-- Abstract syntax of the regular expressions used by
extract_order_items_from_text in llm.py: literals, ordered alternation,
concatenation, optional groups, greedy star/plus over a character class,
and capturing groups.  This covers exactly the constructs of the three
source patterns. -/
inductive RE where
  | fail
  | eps
  | lit (w : List Char)
  | cat (a b : RE)
  | alt (a b : RE)
  | opt (a : RE)
  | starC (p : Char → Bool)
  | plusC (p : Char → Bool)
  | group (a : RE)

/-- Backtracking matcher in continuation-passing style, anchored at the
start of `s`.  The continuation receives the unconsumed suffix and the
captures produced so far; the first continuation success wins.  The
enumeration order reproduces the Python re module for these constructs:
alternatives are tried left to right, optional groups prefer presence, and
star/plus over a character class is greedy (longest first). -/
def reMatchK (r : RE) (s : List Char)
    (k : List Char → List (List Char) → Option (List Char × List (List Char))) :
    Option (List Char × List (List Char)) :=
  match r with
  | .fail => none
  | .eps => k s []
  | .lit w => if listIsPrefix w s then k (s.drop w.length) [] else none
  | .cat a b =>
    reMatchK a s (fun s1 c1 => reMatchK b s1 (fun s2 c2 => k s2 (c1 ++ c2)))
  | .alt a b => (reMatchK a s k).orElse (fun _ => reMatchK b s k)
  | .opt a => (reMatchK a s k).orElse (fun _ => k s [])
  | .starC p =>
    let m := (s.takeWhile p).length
    ((List.range (m + 1)).map (fun j => m - j)).findSome? (fun i => k (s.drop i) [])
  | .plusC p =>
    let m := (s.takeWhile p).length
    ((List.range m).map (fun j => m - j)).findSome? (fun i => k (s.drop i) [])
  | .group a =>
    reMatchK a s (fun rest caps => k rest (caps ++ [s.take (s.length - rest.length)]))

/-- Highest-priority match of `r` anchored at the start of `s`: the
unconsumed suffix and the list of captured groups. -/
def reMatchFirst (r : RE) (s : List Char) : Option (List Char × List (List Char)) :=
  reMatchK r s (fun rest caps => some (rest, caps))

/-- Python re.search: try each start position left to right and return the
captures of the first match. -/
def reSearch (r : RE) : List Char → Option (List (List Char))
  | [] => (reMatchFirst r []).map (·.2)
  | c :: t =>
    match reMatchFirst r (c :: t) with
    | some x => some x.2
    | none => reSearch r t

/-- Fuelled worker for `reFindAll`; every recursive call shortens the
subject string, so fuel `s.length + 1` never runs out (the fuel only makes
the recursion structural). -/
def reFindAllF (r : RE) : ℕ → List Char → List (List (List Char))
  | 0, _ => []
  | _ + 1, [] =>
    match reMatchFirst r [] with
    | some x => [x.2]
    | none => []
  | fuel + 1, c :: t =>
    match reMatchFirst r (c :: t) with
    | some x =>
      if x.1.length < (c :: t).length then x.2 :: reFindAllF r fuel x.1
      else x.2 :: reFindAllF r fuel t
    | none => reFindAllF r fuel t

/-- Python re.findall: non-overlapping matches scanning left to right,
resuming after each match (advancing one character past an empty match). -/
def reFindAll (r : RE) (s : List Char) : List (List (List Char)) :=
  reFindAllF r (s.length + 1) s

/-- Ordered alternation of a list of regexes. -/
def alts (rs : List RE) : RE := rs.foldr RE.alt RE.fail

/-- Concatenation of a list of regexes. -/
def seqRE (rs : List RE) : RE := rs.foldr RE.cat RE.eps

/-- Literal regex from a string. -/
def litS (s : String) : RE := RE.lit s.data

/-- Character class `[a-zA-Z\s]` of the source patterns. -/
def alphaWs (c : Char) : Bool := c.isAlpha || wsChar c

/-- Quantity-plus-item pattern of llm.py: `(\d+)\s+([a-zA-Z\s]+)`. -/
def quantityItemRE : RE :=
  seqRE [.group (.plusC Char.isDigit), .plusC wsChar, .group (.plusC alphaWs)]

/-- Optional group `(?:an?|some|\d+)?` shared by the first and third source
patterns. -/
def articleOptRE : RE :=
  .opt (alts [.cat (litS "a") (.opt (litS "n")), litS "some", .plusC Char.isDigit])

/-- First direct pattern of llm.py extract_order_items_from_text: an
optional ordering-verb prologue followed by a captured word run that must
end in one of ten hardcoded item-type suffixes. -/
def directPattern1 : RE :=
  seqRE [
    .opt (alts [litS "i", litS "get", litS "add", litS "order"]),
    .starC wsChar,
    .opt (alts [litS "would", litS "want", litS "like", litS "need", litS "have"]),
    .starC wsChar,
    .opt (litS "to"),
    .opt (alts [litS "get", litS "add", litS "order", litS "have"]),
    .starC wsChar,
    articleOptRE,
    .starC wsChar,
    .group (.cat (.plusC alphaWs) (alts [litS "burger", litS "shake", litS "fries",
      litS "chico", litS "dog", litS "tea", litS "soda", litS "water",
      litS "coffee", litS "lemonade"]))]

/-- Second direct pattern of llm.py:
`(?:i|get|add|order)?\s*(?:would|want|like|need)?\s*(\d+)\s*([a-zA-Z\s]+)`. -/
def directPattern2 : RE :=
  seqRE [
    .opt (alts [litS "i", litS "get", litS "add", litS "order"]),
    .starC wsChar,
    .opt (alts [litS "would", litS "want", litS "like", litS "need"]),
    .starC wsChar,
    .group (.plusC Char.isDigit),
    .starC wsChar,
    .group (.plusC alphaWs)]

/-- Third direct pattern of llm.py:
`(?:add|give me|get me|get|order)\s*(?:an?|some|\d+)?\s*([a-zA-Z\s]+)`. -/
def directPattern3 : RE :=
  seqRE [
    alts [litS "add", litS "give me", litS "get me", litS "get", litS "order"],
    .starC wsChar,
    articleOptRE,
    .starC wsChar,
    .group (.plusC alphaWs)]

/-- Value of a nonempty digit run, as Python `int`. -/
def digitsToInt (g : List Char) : ℤ :=
  (g.foldl (fun acc c => acc * 10 + (c.toNat - 48)) 0 : ℕ)

/-- Extracted order item: the transient `{"name": ..., "quantity": ...}`
dictionaries produced by the extraction stages of llm.py. -/
structure EItem where
  name : String
  quantity : ℤ
deriving DecidableEq, Repr

/-- Words skipped by the extraction loop of llm.py. -/
def skipWords : List String :=
  ["some", "a", "an", "the", "to", "for", "me", "please", "thanks"]

/-- Quantity increment for the first extracted item with the given name
(the `next(...)` index search plus in-place update of the source). -/
def bumpQty (nm : String) (q : ℤ) : List EItem → List EItem
  | [] => []
  | e :: rest =>
    if e.name == nm then { e with quantity := e.quantity + q } :: rest
    else e :: bumpQty nm q rest

/-- Body of the per-match loop of extract_order_items_from_text: reads the
quantity and raw item name out of the findall groups, skips filler words,
resolves against the menu, and deduplicates by resolved name. -/
def stepMatch (menu : List MenuItem) (st : List EItem × List String)
    (caps : List (List Char)) : List EItem × List String :=
  let (extracted, processed) := st
  let qn : ℤ × String :=
    match caps with
    | [g] => (1, String.mk (pyStrip g))
    | g0 :: g1 :: _ =>
      if g0 ≠ [] && g0.all Char.isDigit then (digitsToInt g0, String.mk (pyStrip g1))
      else (1, String.mk (pyStrip g0))
    | [] => (1, "")
  if qn.2 ∈ skipWords then st
  else
    match find_menu_item menu qn.2 with
    | none => st
    | some mi =>
      if mi.name ∈ processed then st
      else
        let processed2 := processed ++ [mi.name]
        if extracted.any (fun e => e.name == mi.name) then
          (bumpQty mi.name qn.1 extracted, processed2)
        else
          (extracted ++ [⟨mi.name, qn.1⟩], processed2)

/-- extract_order_items_from_text from llm.py: first a direct
quantity-plus-item search that early-returns when its trailing words
resolve to a menu item, then the three direct patterns scanned with
findall over the lowered message, folding every match through
`stepMatch`. -/
def extract_order_items_from_text (menu : List MenuItem) (user_message : String) :
    List EItem :=
  let lowered := pyLower user_message.data
  let qtyBranch : Option (List EItem) :=
    match reSearch quantityItemRE lowered with
    | some [g1, g2] =>
      match find_menu_item menu (String.mk (pyStrip g2)) with
      | some mi => some [⟨mi.name, digitsToInt g1⟩]
      | none => none
    | _ => none
  match qtyBranch with
  | some res => res
  | none =>
    (([directPattern1, directPattern2, directPattern3].foldl
      (fun st re => (reFindAll re lowered).foldl (stepMatch menu) st) ([], []))).1

/-- extract_order_items from llm.py, instrumented: the text stage runs
first and its nonempty result is returned as is; only an empty text-stage
result invokes the LLM stage (modelled by the function argument).  The
boolean records whether the LLM stage was invoked. -/
def extract_order_items (menu : List MenuItem) (llm_stage : String → List EItem)
    (user_message : String) : List EItem × Bool :=
  let extracted := extract_order_items_from_text menu user_message
  if extracted ≠ [] then (extracted, false) else (llm_stage user_message, true)

/-- A raised Python exception as observed by llm_error_handler: the
exception type name (`type(e).__name__`) and its string rendering
(`str(e)`). -/
structure PyExc where
  typeName : String
  details : String
deriving DecidableEq, Repr

/-- Apology returned by llm_error_handler when the error details mention
`Unauthorized`. -/
def authApologyMsg : String :=
  "There seems to be an issue with the API key. Please check that your API key is valid."

/-- Apology returned by llm_error_handler when the error details mention
`Connection` or `Timeout`. -/
def connApologyMsg : String :=
  "I" ++ apos ++ "m having trouble connecting to the language model service. " ++
    "Please check your internet connection and try again."

/-- Apology returned by llm_error_handler when the error looks like a
JSON or parsing failure. -/
def parseApologyMsg : String :=
  "I had trouble processing the response format. Please try rephrasing your request."

/-- Generic apology prefix of llm_error_handler used with a string
default_return. -/
def genericApologyMsg (default_return : String) : String :=
  "I" ++ apos ++ "m having trouble processing your request. " ++ default_return

/-- llm_error_handler from llm.py, specialised to a wrapped function
returning a string, with a string default_return (the classify_intent
configuration).  An ok body result passes through; an exception is mapped
to one of the category apologies, then the explicit error_message if one
was given, then the generic apology built from default_return (the
`isinstance(default_return, str)` branch always holds here). -/
def llm_error_handler (default_return : String) (error_message : Option String)
    (body : Except PyExc String) : String :=
  match body with
  | .ok v => v
  | .error e =>
    if pyIn "Unauthorized" e.details then authApologyMsg
    else if pyIn "Connection" e.details || pyIn "Timeout" e.details then connApologyMsg
    else if pyIn "JSON" e.typeName || pyIn "parsing" (lowerS e.details) then parseApologyMsg
    else
      match error_message with
      | some m => if m ≠ "" then m else genericApologyMsg default_return
      | none => genericApologyMsg default_return

/-- The ChatOpenAI handle constructed by get_llm, reduced to the data that
distinguishes it: the API key it was given. -/
structure ChatOpenAI where
  api_key : String
deriving DecidableEq, Repr

/-- get_llm from llm.py, with the session key
(`st.session_state.get("openai_api_key")`) and the environment key
(`os.getenv("OPENAI_API_KEY")`) as explicit inputs: a truthy session key
wins, else a truthy environment key, else None. -/
def get_llm (session_key env_key : Option String) : Option ChatOpenAI :=
  if pyTruthyStr session_key then some ⟨session_key.getD ""⟩
  else if pyTruthyStr env_key then some ⟨env_key.getD ""⟩
  else none

/-- classify_intent from llm.py: body returns `general_question` when no
LLM is configured, otherwise the completion content stripped and lowered;
the llm_error_handler decoration (default_return `general_question`, no
error_message) intercepts any exception of the completion call. -/
def classify_intent (llm : Option ChatOpenAI) (chain_result : Except PyExc String) :
    String :=
  llm_error_handler "general_question" none
    (match llm with
     | none => .ok "general_question"
     | some _ => chain_result.map (fun content => lowerS (stripS content)))

/-- Key-missing reply of process_message when neither a session key nor an
environment key is configured. -/
def provideKeyMsg : String :=
  "Please provide your OpenAI API key in the sidebar to use the chat functionality."

/-- Reply of process_message when get_llm failed but an environment key
exists (unreachable in the model, kept from the source). -/
def defaultKeyMsg : String :=
  "Using default API key. For personalized service, you can provide your own OpenAI API key in the sidebar."

/-- Credential gate of process_message from llm.py: with no LLM the reply
depends on whether an environment key exists; with an LLM the rest of the
pipeline runs (abstracted as the `rest` argument, which covers the menu
shortcut, intent classification and the intent branches). -/
def process_message (session_key env_key : Option String)
    (rest : ChatOpenAI → String → String) (user_message : String) : String :=
  match get_llm session_key env_key with
  | none => if pyTruthyStr env_key then defaultKeyMsg else provideKeyMsg
  | some llm => rest llm user_message

/-- Levenshtein edit distance, used by the spec-modelled resolution
cascade as its example string-similarity metric. -/
def lev : List Char → List Char → ℕ
  | [], ys => ys.length
  | x :: xs, [] => (x :: xs).length
  | x :: xs, y :: ys =>
    if x == y then lev xs ys
    else 1 + min (lev xs (y :: ys)) (min (lev (x :: xs) ys) (lev xs ys))
termination_by xs ys => xs.length + ys.length
decreasing_by
  all_goals simp [List.length_cons]
  all_goals omega

/-- Normalized string similarity `1 - lev/max(len)` for the spec-modelled
cascade. -/
def simRatio (a b : List Char) : ℚ :=
  1 - (lev a b : ℚ) / (max a.length b.length : ℚ)

/-- Permissive similarity cutoff of the spec-modelled cascade. -/
def simCutoff : ℚ := 6 / 10

/-- Modelled from the spec: the fixed keyword-to-bucket mapping of the
claimed resolution tier 5, with the bucket the spec itself exemplifies
(`burger` mapping to burger, hamburger and cheeseburger). -/
def KEYWORD_BUCKETS : List (String × List String) :=
  [("burger", ["burger", "hamburger", "cheeseburger"])]

/-- Maximum-similarity candidate (earliest wins on ties). -/
def bestBySim (q : List Char) : List MenuItem → Option (MenuItem × ℚ)
  | [] => none
  | c :: rest =>
    some (rest.foldl
      (fun acc it =>
        let s := simRatio q (pyLower it.name.data)
        if s > acc.2 then (it, s) else acc)
      (c, simRatio q (pyLower c.name.data)))

/-- Modelled from the spec: keyword-category fallback tier of the claimed
cascade.  If the query contains any keyword of a bucket, candidates are
narrowed to items whose name contains any keyword of that bucket, and the
closest candidate by similarity is picked with a permissive cutoff,
defaulting to the first candidate. -/
def cascadeTier5 (items : List MenuItem) (q : List Char) : Option MenuItem :=
  match KEYWORD_BUCKETS.find? (fun b => b.2.any (fun kw => listSub kw.data q)) with
  | none => none
  | some b =>
    match items.filter (fun it => b.2.any (fun kw => listSub kw.data (pyLower it.name.data))) with
    | [] => none
    | c :: rest =>
      match bestBySim q (c :: rest) with
      | some (it, s) => if simCutoff ≤ s then some it else some c
      | none => some c

/-- Modelled from the spec: minimum partial-overlap threshold of the
claimed cascade tier 4. -/
def overlapCutoff : ℚ := 1 / 2

/-- Partial-overlap score of the claimed cascade tier 4: overlapping words
over the larger word count. -/
def overlapScore (item_lower q : List Char) : ℚ :=
  let iw := wordSet item_lower
  let qw := wordSet q
  ((iw.filter (· ∈ qw)).length : ℚ) / (max iw.length qw.length : ℚ)

/-- Best candidate by partial overlap above the cutoff (earliest wins on
ties), for the claimed cascade tier 4. -/
def cascadeTier4 (items : List MenuItem) (q : List Char) : Option MenuItem :=
  (items.foldl
    (fun acc it =>
      let s := overlapScore (pyLower it.name.data) q
      match acc with
      | none => if s > overlapCutoff then some (it, s) else none
      | some b => if s > b.2 then some (it, s) else some b)
    none).map (·.1)

/-- Modelled from the spec: the six-tier resolution cascade that claim C2
asserts find_menu_item implements.  Tier 1: first exact case-insensitive
match; tier 2: first substring containment in either direction; tier 3:
first word-set inclusion in either direction; tier 4: best partial word
overlap above a minimum threshold; tier 5: keyword-category fallback;
tier 6: NotFound. -/
def resolve_cascade_spec (items : List MenuItem) (item_name : String) : Option MenuItem :=
  let q := pyStrip (pyLower item_name.data)
  (items.find? (fun it => pyLower it.name.data == q)).orElse (fun _ =>
  (items.find? (fun it =>
      listSub q (pyLower it.name.data) || listSub (pyLower it.name.data) q)).orElse (fun _ =>
  (items.find? (fun it =>
      let iw := wordSet (pyLower it.name.data)
      let qw := wordSet q
      (iw.all (· ∈ qw)) || (qw.all (· ∈ iw)))).orElse (fun _ =>
  (cascadeTier4 items q).orElse (fun _ =>
  cascadeTier5 items q))))

/-- Price consistency of the order lines with a pricing function on
lowercased names (the C1 hypothesis that menu prices are fixed per name). -/
def pricesOk (priceOf : String → ℚ) (lines : List OrderLine) : Prop :=
  ∀ l ∈ lines, l.price = priceOf (lowerS l.name)

/-- Uniqueness invariant of the order list: no two lines share a
case-insensitive name. -/
def uniqNames (lines : List OrderLine) : Prop :=
  lines.Pairwise (fun a b => lowerS a.name ≠ lowerS b.name)

theorem splitFirstMatch_some {p : OrderLine → Bool} :
    ∀ {xs : List OrderLine} {pre l post},
      splitFirstMatch p xs = some (pre, l, post) →
      xs = pre ++ l :: post ∧ p l = true ∧ ∀ x ∈ pre, p x = false := by
  intro xs
  induction xs with
  | nil => intro pre l post h; simp [splitFirstMatch] at h
  | cons a t ih =>
    intro pre l post h
    rw [splitFirstMatch] at h
    by_cases hp : p a
    · simp only [hp, if_true, Option.some.injEq, Prod.mk.injEq] at h
      obtain ⟨h1, h2, h3⟩ := h
      subst h1; subst h2; subst h3
      simp [hp]
    · simp only [hp, if_false, Bool.false_eq_true, Option.map_eq_some'] at h
      obtain ⟨⟨pre2, l2, post2⟩, hsp, heq⟩ := h
      simp only [Prod.mk.injEq] at heq
      obtain ⟨h1, h2, h3⟩ := heq
      subst h1; subst h2; subst h3
      obtain ⟨hxs, hl, hpre⟩ := ih hsp
      refine ⟨by simp [hxs], hl, ?_⟩
      intro x hx
      rcases List.mem_cons.mp hx with h | h
      · subst h; simpa using hp
      · exact hpre x h

theorem splitFirstMatch_none {p : OrderLine → Bool} :
    ∀ {xs : List OrderLine},
      splitFirstMatch p xs = none ↔ ∀ x ∈ xs, p x = false := by
  intro xs
  induction xs with
  | nil => simp [splitFirstMatch]
  | cons a t ih =>
    rw [splitFirstMatch]
    by_cases hp : p a
    · simp [hp]
    · simp only [hp, if_false, Bool.false_eq_true, Option.map_eq_none']
      rw [ih]
      constructor
      · intro h x hx
        rcases List.mem_cons.mp hx with hxa | hxt
        · subst hxa; simpa using hp
        · exact h x hxt
      · intro h x hx
        exact h x (List.mem_cons_of_mem a hx)

theorem linesTotal_nil : linesTotal [] = 0 := by simp [linesTotal]

theorem linesTotal_cons (l : OrderLine) (t : List OrderLine) :
    linesTotal (l :: t) = l.price * (l.quantity : ℚ) + linesTotal t := by
  simp [linesTotal]

theorem linesTotal_append (a b : List OrderLine) :
    linesTotal (a ++ b) = linesTotal a + linesTotal b := by
  simp [linesTotal]

theorem applyOp_inv (priceOf : String → ℚ) (s : OrderState) (op : Op)
    (hop : opOk priceOf op = true)
    (ht : s.total_price = linesTotal s.order)
    (hp : pricesOk priceOf s.order) :
    (applyOp s op).total_price = linesTotal (applyOp s op).order ∧
      pricesOk priceOf (applyOp s op).order := by
  cases op with
  | add mi q =>
    cases mi with
    | none => simp [opOk] at hop
    | some m =>
      simp only [opOk, Bool.and_eq_true, beq_iff_eq, decide_eq_true_eq] at hop
      obtain ⟨hpr, _⟩ := hop
      cases hsp : splitFirstMatch (fun l => pyLower l.name.data == pyLower m.name.data) s.order with
      | none =>
        simp only [applyOp, add_to_order, hsp]
        constructor
        · rw [linesTotal_append, linesTotal_cons, linesTotal_nil, ht]; ring
        · intro x hx
          rcases List.mem_append.mp hx with hx | hx
          · exact hp x hx
          · simp only [List.mem_singleton] at hx
            subst hx
            simpa using hpr
      | some t =>
        obtain ⟨pre, l, post⟩ := t
        obtain ⟨hxs, hpl, -⟩ := splitFirstMatch_some hsp
        simp only [beq_iff_eq] at hpl
        have hname : lowerS l.name = lowerS m.name := congrArg String.mk hpl
        have hlp : l.price = priceOf (lowerS l.name) :=
          hp l (by rw [hxs]; exact List.mem_append_right _ (List.mem_cons_self _ _))
        have hlm : l.price = m.price := by rw [hlp, hname, ← hpr]
        simp only [applyOp, add_to_order, hsp]
        constructor
        · rw [ht, hxs, linesTotal_append, linesTotal_cons, linesTotal_append, linesTotal_cons]
          simp only [Int.cast_add]
          rw [hlm]
          ring
        · intro x hx
          rcases List.mem_append.mp hx with hx | hx
          · exact hp x (by rw [hxs]; exact List.mem_append_left _ hx)
          · rcases List.mem_cons.mp hx with hx | hx
            · subst hx
              simpa using hlp
            · exact hp x
                (by rw [hxs]; exact List.mem_append_right _ (List.mem_cons_of_mem _ hx))
  | upd nm q =>
    cases hsp : splitFirstMatch (lineMatches nm) s.order with
    | none => simpa only [applyOp, update_order_quantity, hsp] using ⟨ht, hp⟩
    | some t =>
      obtain ⟨pre, l, post⟩ := t
      obtain ⟨hxs, -, -⟩ := splitFirstMatch_some hsp
      by_cases hq : q ≤ 0
      · simp only [applyOp, update_order_quantity, hsp, if_pos hq]
        constructor
        · rw [ht, hxs, linesTotal_append, linesTotal_cons, linesTotal_append]; ring
        · intro x hx
          rcases List.mem_append.mp hx with hx | hx
          · exact hp x (by rw [hxs]; exact List.mem_append_left _ hx)
          · exact hp x
              (by rw [hxs]; exact List.mem_append_right _ (List.mem_cons_of_mem _ hx))
      · simp only [applyOp, update_order_quantity, hsp, if_neg hq]
        constructor
        · rw [ht, hxs, linesTotal_append, linesTotal_cons, linesTotal_append, linesTotal_cons]
          ring
        · intro x hx
          rcases List.mem_append.mp hx with hx | hx
          · exact hp x (by rw [hxs]; exact List.mem_append_left _ hx)
          · rcases List.mem_cons.mp hx with hx | hx
            · subst hx
              simpa using hp l
                (by rw [hxs]; exact List.mem_append_right _ (List.mem_cons_self _ _))
            · exact hp x
                (by rw [hxs]; exact List.mem_append_right _ (List.mem_cons_of_mem _ hx))
  | rem nm =>
    cases hsp : splitFirstMatch (lineMatches nm) s.order with
    | none => simpa only [applyOp, remove_from_order, hsp] using ⟨ht, hp⟩
    | some t =>
      obtain ⟨pre, l, post⟩ := t
      obtain ⟨hxs, -, -⟩ := splitFirstMatch_some hsp
      simp only [applyOp, remove_from_order, hsp]
      constructor
      · rw [ht, hxs, linesTotal_append, linesTotal_cons, linesTotal_append]; ring
      · intro x hx
        rcases List.mem_append.mp hx with hx | hx
        · exact hp x (by rw [hxs]; exact List.mem_append_left _ hx)
        · exact hp x
            (by rw [hxs]; exact List.mem_append_right _ (List.mem_cons_of_mem _ hx))
  | clear =>
    simp only [applyOp, clear_order]
    exact ⟨by simp [linesTotal_nil], by intro x hx; simp at hx⟩

theorem runOps_inv (priceOf : String → ℚ) :
    ∀ (ops : List Op) (s : OrderState),
      (∀ op ∈ ops, opOk priceOf op = true) →
      s.total_price = linesTotal s.order →
      pricesOk priceOf s.order →
      (runOps ops s).total_price = linesTotal (runOps ops s).order ∧
        pricesOk priceOf (runOps ops s).order := by
  intro ops
  induction ops with
  | nil => intro s _ ht hp; exact ⟨ht, hp⟩
  | cons op rest ih =>
    intro s hops ht hp
    have hstep := applyOp_inv priceOf s op (hops op (List.mem_cons_self _ _)) ht hp
    have : runOps (op :: rest) s = runOps rest (applyOp s op) := rfl
    rw [this]
    exact ih (applyOp s op) (fun o ho => hops o (List.mem_cons_of_mem _ ho)) hstep.1 hstep.2

/-- Claim C1: for every sequence of calls to add_to_order, update_order_quantity
and remove_from_order (clear_order included for good measure) starting from
the empty session state, where every add is given a real menu item whose
price is a fixed function of its case-insensitive name and a quantity of at
least 1, the session total_price equals the sum over the order lines of
price times quantity after every call, exactly (the embedding uses
rationals, so the within-rounding-tolerance qualification is discharged
exactly). -/
theorem claim_C1 (priceOf : String → ℚ) (ops : List Op)
    (hops : ∀ op ∈ ops, opOk priceOf op = true) (n : ℕ) :
    (runOps (ops.take n) initState).total_price =
      linesTotal (runOps (ops.take n) initState).order :=
  (runOps_inv priceOf (ops.take n) initState
    (fun op hop => hops op (List.take_subset n ops hop))
    (by simp [initState, linesTotal_nil])
    (by intro l hl; simp [initState] at hl)).1

/-- Claim C1 witness: a concrete three-call session (add two ShackBurgers,
update to three, remove) keeps total_price equal to the line sum. -/
theorem claim_C1_witness :
    (∀ op ∈ ([Op.add (some ⟨"ShackBurger", 7, 500, "Burgers"⟩) 2,
        Op.upd "shack" 3, Op.rem "burger"] : List Op),
      opOk (fun nm => if nm == "shackburger" then 7 else 0) op = true) ∧
    (runOps (([Op.add (some ⟨"ShackBurger", 7, 500, "Burgers"⟩) 2,
        Op.upd "shack" 3, Op.rem "burger"] : List Op).take 3) initState).total_price =
      linesTotal (runOps (([Op.add (some ⟨"ShackBurger", 7, 500, "Burgers"⟩) 2,
        Op.upd "shack" 3, Op.rem "burger"] : List Op).take 3) initState).order :=
  ⟨by decide,
    claim_C1 (fun nm => if nm == "shackburger" then 7 else 0)
      [Op.add (some ⟨"ShackBurger", 7, 500, "Burgers"⟩) 2,
        Op.upd "shack" 3, Op.rem "burger"] (by decide) 3⟩

/-- Claim C5: when the order has a line matched by item_name (case-insensitive
substring of the stored name; the first such line), update_order_quantity
with a new quantity of at most 0 removes that line and decreases
total_price by its price times old quantity; with a positive new quantity
it sets that quantity and adjusts total_price by price times the quantity
delta; and starting from positive line quantities, no line has a
non-positive quantity after the call. -/
theorem claim_C5 (s : OrderState) (nm : String) (nq : ℤ)
    (pre : List OrderLine) (l : OrderLine) (post : List OrderLine)
    (h : splitFirstMatch (lineMatches nm) s.order = some (pre, l, post)) :
    (nq ≤ 0 →
      (update_order_quantity nm nq s).2.order = pre ++ post ∧
      (update_order_quantity nm nq s).2.total_price =
        s.total_price - l.price * (l.quantity : ℚ)) ∧
    (0 < nq →
      (update_order_quantity nm nq s).2.order =
        pre ++ { l with quantity := nq } :: post ∧
      (update_order_quantity nm nq s).2.total_price =
        s.total_price + l.price * ((nq : ℚ) - (l.quantity : ℚ))) ∧
    ((∀ x ∈ s.order, 0 < x.quantity) →
      ∀ x ∈ (update_order_quantity nm nq s).2.order, 0 < x.quantity) := by
  obtain ⟨hxs, -, -⟩ := splitFirstMatch_some h
  refine ⟨?_, ?_, ?_⟩
  · intro hq
    simp only [update_order_quantity, h, if_pos hq]
    exact ⟨trivial, trivial⟩
  · intro hq
    have hq2 : ¬ nq ≤ 0 := by omega
    simp only [update_order_quantity, h, if_neg hq2]
    exact ⟨trivial, trivial⟩
  · intro hall x hx
    by_cases hq : nq ≤ 0
    · simp only [update_order_quantity, h, if_pos hq] at hx
      rcases List.mem_append.mp hx with hx | hx
      · exact hall x (by rw [hxs]; exact List.mem_append_left _ hx)
      · exact hall x
          (by rw [hxs]; exact List.mem_append_right _ (List.mem_cons_of_mem _ hx))
    · simp only [update_order_quantity, h, if_neg hq] at hx
      rcases List.mem_append.mp hx with hx | hx
      · exact hall x (by rw [hxs]; exact List.mem_append_left _ hx)
      · rcases List.mem_cons.mp hx with hx | hx
        · subst hx; simpa using by omega
        · exact hall x
            (by rw [hxs]; exact List.mem_append_right _ (List.mem_cons_of_mem _ hx))

/-- Claim C5 witness: setting the single ShackBurger line to quantity 0 removes
it and subtracts its contribution from the total. -/
theorem claim_C5_witness :
    (update_order_quantity "shack" 0
      ⟨[⟨"ShackBurger", 7, "Burgers", 2⟩], 14, false⟩).2.order = [] ∧
    (update_order_quantity "shack" 0
      ⟨[⟨"ShackBurger", 7, "Burgers", 2⟩], 14, false⟩).2.total_price =
      14 - 7 * ((2 : ℤ) : ℚ) := by
  have h := claim_C5 ⟨[⟨"ShackBurger", 7, "Burgers", 2⟩], 14, false⟩ "shack" 0
    [] ⟨"ShackBurger", 7, "Burgers", 2⟩ [] (by rfl)
  have h2 := h.1 (by omega)
  exact ⟨h2.1, h2.2⟩

/-- Claim C7: when no order line name contains item_name (case-insensitive),
update_order_quantity and remove_from_order both return exactly the
distinct not-found message and leave the entire state (order lines and
total_price) unchanged. -/
theorem claim_C7 (s : OrderState) (nm : String) (nq : ℤ)
    (h : ∀ x ∈ s.order, lineMatches nm x = false) :
    update_order_quantity nm nq s = (couldNotFindMsg nm, s) ∧
    remove_from_order nm s = (couldNotFindMsg nm, s) := by
  have hnone : splitFirstMatch (lineMatches nm) s.order = none :=
    splitFirstMatch_none.mpr h
  constructor
  · simp only [update_order_quantity, hnone]
  · simp only [remove_from_order, hnone]

/-- Claim C7 witness: asking for pizza in an order holding only fries returns
the not-found message and changes nothing. -/
theorem claim_C7_witness :
    update_order_quantity "Pizza" 2 ⟨[⟨"Fries", 4, "Fries", 1⟩], 4, false⟩ =
      (couldNotFindMsg "Pizza", ⟨[⟨"Fries", 4, "Fries", 1⟩], 4, false⟩) ∧
    remove_from_order "Pizza" ⟨[⟨"Fries", 4, "Fries", 1⟩], 4, false⟩ =
      (couldNotFindMsg "Pizza", ⟨[⟨"Fries", 4, "Fries", 1⟩], 4, false⟩) :=
  claim_C7 ⟨[⟨"Fries", 4, "Fries", 1⟩], 4, false⟩ "Pizza" 2 (by decide)

/-- Claim C8: for a non-empty order, if the save_order collaborator returns the
failure sentinel None, finalize_order returns the failure message and
leaves the state untouched; and the order is cleared only if save_order
returned a non-None identifier. -/
theorem claim_C8 (s : OrderState) (save_result : Option String)
    (h : s.order ≠ []) :
    (save_result = none →
      finalize_order save_result s =
        ("Sorry, there was a problem saving your order. Please try again.", s)) ∧
    ((finalize_order save_result s).2.order = [] → ∃ oid, save_result = some oid) := by
  constructor
  · intro hn
    subst hn
    simp [finalize_order, h, pyTruthyStr]
  · intro hcleared
    cases hsv : save_result with
    | none =>
      rw [hsv] at hcleared
      simp [finalize_order, h, pyTruthyStr] at hcleared
    | some oid => exact ⟨oid, rfl⟩

/-- Claim C8 witness: a one-line order with a failed save keeps its line and
total. -/
theorem claim_C8_witness :
    finalize_order none ⟨[⟨"Fries", 4, "Fries", 1⟩], 4, false⟩ =
      ("Sorry, there was a problem saving your order. Please try again.",
        ⟨[⟨"Fries", 4, "Fries", 1⟩], 4, false⟩) :=
  (claim_C8 ⟨[⟨"Fries", 4, "Fries", 1⟩], 4, false⟩ none (by simp)).1 rfl

/-- Claim C9: get_llm prefers a truthy session key over the environment key,
falls back to a truthy environment key, and returns None when both are
absent, in which case process_message returns the please-provide-a-key
message instead of raising. -/
theorem claim_C9 (session_key env_key : Option String) :
    (∀ k, session_key = some k → k ≠ "" →
      get_llm session_key env_key = some ⟨k⟩) ∧
    (pyTruthyStr session_key = false →
      ∀ k, env_key = some k → k ≠ "" → get_llm session_key env_key = some ⟨k⟩) ∧
    (pyTruthyStr session_key = false → pyTruthyStr env_key = false →
      get_llm session_key env_key = none ∧
      ∀ (rest : ChatOpenAI → String → String) (msg : String),
        process_message session_key env_key rest msg = provideKeyMsg) := by
  refine ⟨?_, ?_, ?_⟩
  · intro k hk hke
    subst hk
    simp [get_llm, pyTruthyStr, hke]
  · intro hs k hk hke
    subst hk
    simp only [get_llm]
    rw [hs]
    simp [pyTruthyStr, hke]
  · intro hs he
    have hn : get_llm session_key env_key = none := by simp [get_llm, hs, he]
    exact ⟨hn, fun rest msg => by simp [process_message, hn, he]⟩

/-- Claim C9 witness: a session key beats a configured environment key, and with
no keys at all process_message answers with the key request. -/
theorem claim_C9_witness :
    get_llm (some "sk-user") (some "sk-env") = some ⟨"sk-user"⟩ ∧
    get_llm none none = none ∧
    process_message none none (fun _ m => m) "hi" = provideKeyMsg := by
  refine ⟨(claim_C9 (some "sk-user") (some "sk-env")).1 "sk-user" rfl (by decide), ?_, ?_⟩
  · exact ((claim_C9 none none).2.2 (by decide) (by decide)).1
  · exact ((claim_C9 none none).2.2 (by decide) (by decide)).2 (fun _ m => m) "hi"

/-- Claim C10: add_to_order returns False exactly on a falsy menu item, leaving
the state unchanged in that case, and True exactly when a real menu item
was merged into or appended to the order. -/
theorem claim_C10 (menu_item : Option MenuItem) (quantity : ℤ) (s : OrderState) :
    (add_to_order menu_item quantity s).1 = menu_item.isSome ∧
    (menu_item = none → add_to_order menu_item quantity s = (false, s)) := by
  cases menu_item with
  | none => exact ⟨rfl, fun _ => rfl⟩
  | some m =>
    refine ⟨?_, by intro h; cases h⟩
    cases hsp : splitFirstMatch (fun l => pyLower l.name.data == pyLower m.name.data) s.order with
    | none => simp [add_to_order, hsp]
    | some t => obtain ⟨pre, l, post⟩ := t; simp [add_to_order, hsp]

/-- Claim C10 witness: adding a falsy item to the empty session returns False
and leaves the state unchanged. -/
theorem claim_C10_witness :
    (add_to_order none 1 initState).1 = (none : Option MenuItem).isSome ∧
    add_to_order none 1 initState = (false, initState) :=
  ⟨(claim_C10 none 1 initState).1, (claim_C10 none 1 initState).2 rfl⟩

theorem uniqNames_middle {pre post : List OrderLine} (l l' : OrderLine)
    (hn : lowerS l'.name = lowerS l.name)
    (h : uniqNames (pre ++ l :: post)) : uniqNames (pre ++ l' :: post) := by
  rw [uniqNames, List.pairwise_append] at h ⊢
  obtain ⟨h1, h2, h3⟩ := h
  rw [List.pairwise_cons] at h2 ⊢
  obtain ⟨h2a, h2b⟩ := h2
  refine ⟨h1, ⟨?_, h2b⟩, ?_⟩
  · intro b hb
    rw [hn]
    exact h2a b hb
  · intro a ha b hb
    rcases List.mem_cons.mp hb with hb | hb
    · subst hb
      rw [hn]
      exact h3 a ha l (List.mem_cons_self _ _)
    · exact h3 a ha b (List.mem_cons_of_mem _ hb)

theorem uniqNames_remove {pre post : List OrderLine} {l : OrderLine}
    (h : uniqNames (pre ++ l :: post)) : uniqNames (pre ++ post) :=
  List.Pairwise.sublist (List.Sublist.append_left ((List.Sublist.refl post).cons l) pre) h

theorem uniqNames_applyOp (s : OrderState) (op : Op)
    (h : uniqNames s.order) : uniqNames (applyOp s op).order := by
  cases op with
  | add mi q =>
    cases mi with
    | none => exact h
    | some m =>
      cases hsp : splitFirstMatch (fun l => pyLower l.name.data == pyLower m.name.data) s.order with
      | none =>
        simp only [applyOp, add_to_order, hsp]
        rw [uniqNames, List.pairwise_append]
        refine ⟨h, by simp, ?_⟩
        intro a ha b hb
        simp only [List.mem_singleton] at hb
        subst hb
        have hfa := splitFirstMatch_none.mp hsp a ha
        simp only [beq_eq_false_iff_ne, ne_eq] at hfa
        intro hcontra
        apply hfa
        have hd := congrArg String.data hcontra
        simpa [lowerS] using hd
      | some t =>
        obtain ⟨pre, l, post⟩ := t
        obtain ⟨hxs, -, -⟩ := splitFirstMatch_some hsp
        simp only [applyOp, add_to_order, hsp]
        exact uniqNames_middle l { l with quantity := l.quantity + q } rfl
          (by rw [hxs] at h; exact h)
  | upd nm q =>
    cases hsp : splitFirstMatch (lineMatches nm) s.order with
    | none => simpa only [applyOp, update_order_quantity, hsp] using h
    | some t =>
      obtain ⟨pre, l, post⟩ := t
      obtain ⟨hxs, -, -⟩ := splitFirstMatch_some hsp
      by_cases hq : q ≤ 0
      · simp only [applyOp, update_order_quantity, hsp, if_pos hq]
        exact uniqNames_remove (by rw [hxs] at h; exact h)
      · simp only [applyOp, update_order_quantity, hsp, if_neg hq]
        exact uniqNames_middle l { l with quantity := q } rfl
          (by rw [hxs] at h; exact h)
  | rem nm =>
    cases hsp : splitFirstMatch (lineMatches nm) s.order with
    | none => simpa only [applyOp, remove_from_order, hsp] using h
    | some t =>
      obtain ⟨pre, l, post⟩ := t
      obtain ⟨hxs, -, -⟩ := splitFirstMatch_some hsp
      simp only [applyOp, remove_from_order, hsp]
      exact uniqNames_remove (by rw [hxs] at h; exact h)
  | clear =>
    simp only [applyOp, clear_order]
    exact List.Pairwise.nil

theorem uniqNames_runOps :
    ∀ (ops : List Op) (s : OrderState),
      uniqNames s.order → uniqNames (runOps ops s).order := by
  intro ops
  induction ops with
  | nil => intro s h; exact h
  | cons op rest ih =>
    intro s h
    exact ih (applyOp s op) (uniqNames_applyOp s op h)

/-- Claim C6: the order list never holds two lines with the same
case-insensitive name.  A repeated add merges into the first matching
line, incrementing its quantity without appending (the list length is
unchanged); every operation preserves the uniqueness invariant; and every
state reachable from the empty session satisfies it. -/
theorem claim_C6 :
    (∀ (s : OrderState) (m : MenuItem) (q : ℤ)
        (pre : List OrderLine) (l : OrderLine) (post : List OrderLine),
      splitFirstMatch (fun x => pyLower x.name.data == pyLower m.name.data) s.order =
          some (pre, l, post) →
      (add_to_order (some m) q s).2.order =
          pre ++ { l with quantity := l.quantity + q } :: post ∧
      (add_to_order (some m) q s).2.order.length = s.order.length) ∧
    (∀ (s : OrderState) (op : Op), uniqNames s.order → uniqNames (applyOp s op).order) ∧
    (∀ ops : List Op, uniqNames (runOps ops initState).order) := by
  refine ⟨?_, uniqNames_applyOp, ?_⟩
  · intro s m q pre l post h
    obtain ⟨hxs, -, -⟩ := splitFirstMatch_some h
    constructor
    · simp only [add_to_order, h]
    · simp only [add_to_order, h]
      simp [hxs]
  · intro ops
    exact uniqNames_runOps ops initState List.Pairwise.nil

/-- Claim C6 witness: adding fries (lowercase) to an order already holding a
Fries line merges into that line instead of appending. -/
theorem claim_C6_witness :
    (add_to_order (some ⟨"fries", 4, 470, "Fries"⟩) 2
      ⟨[⟨"Fries", 4, "Fries", 1⟩], 4, false⟩).2.order =
      [⟨"Fries", 4, "Fries", (1 : ℤ) + 2⟩] ∧
    (add_to_order (some ⟨"fries", 4, 470, "Fries"⟩) 2
      ⟨[⟨"Fries", 4, "Fries", 1⟩], 4, false⟩).2.order.length =
      ([⟨"Fries", 4, "Fries", 1⟩] : List OrderLine).length := by
  have h := claim_C6.1 ⟨[⟨"Fries", 4, "Fries", 1⟩], 4, false⟩
    ⟨"fries", 4, 470, "Fries"⟩ 2 [] ⟨"Fries", 4, "Fries", 1⟩ [] (by rfl)
  exact ⟨h.1, h.2⟩

/-- Claim C3 counterexample: a connection error raised by the completion call
makes classify_intent return the connection apology of llm_error_handler,
which is not the intent label general_question, refuting the claim that
any exception yields exactly that label. -/
theorem claim_C3_counterexample :
    classify_intent (some ⟨"sk-test"⟩)
        (.error ⟨"APIConnectionError", "Connection error."⟩) = connApologyMsg ∧
    connApologyMsg ≠ "general_question" := by
  constructor
  · decide
  · decide

/-- Claim C3 amended: when the completion call inside classify_intent raises,
the exception never propagates: the result is one of the four fixed
llm_error_handler fallback strings (the API-key apology, the connection
apology, the format apology, or the generic apology that merely embeds the
default label general_question) — not the bare intent label. -/
theorem claim_C3_amended (llm : ChatOpenAI) (e : PyExc) :
    classify_intent (some llm) (.error e) = authApologyMsg ∨
    classify_intent (some llm) (.error e) = connApologyMsg ∨
    classify_intent (some llm) (.error e) = parseApologyMsg ∨
    classify_intent (some llm) (.error e) = genericApologyMsg "general_question" := by
  simp only [classify_intent, Except.map, llm_error_handler]
  split_ifs <;> simp

theorem scanBest_cases (q : List Char) :
    ∀ (items : List MenuItem) (b : Option MenuItem) (bs : ℚ),
      (scanBest q items (b, bs) = (b, bs) ∧
        ∀ it ∈ items, matchScore (pyLower it.name.data) q ≤ bs) ∨
      (∃ w, w ∈ items ∧
        scanBest q items (b, bs) = (some w, matchScore (pyLower w.name.data) q) ∧
        bs < matchScore (pyLower w.name.data) q ∧
        ∀ j ∈ items, matchScore (pyLower j.name.data) q ≤
          matchScore (pyLower w.name.data) q) := by
  intro items
  induction items with
  | nil => intro b bs; left; exact ⟨rfl, by simp⟩
  | cons it rest ih =>
    intro b bs
    rw [scanBest]
    by_cases hgt : matchScore (pyLower it.name.data) q > bs
    · simp only [hgt, if_pos]
      rcases ih (some it) (matchScore (pyLower it.name.data) q) with ⟨heq, hall⟩ | ⟨w, hw, heq, hlt, hall⟩
      · right
        refine ⟨it, List.mem_cons_self _ _, heq, hgt, ?_⟩
        intro j hj
        rcases List.mem_cons.mp hj with hj | hj
        · subst hj; exact le_refl _
        · exact hall j hj
      · right
        refine ⟨w, List.mem_cons_of_mem _ hw, heq, lt_trans hgt hlt, ?_⟩
        intro j hj
        rcases List.mem_cons.mp hj with hj | hj
        · subst hj; exact le_of_lt hlt
        · exact hall j hj
    · simp only [hgt, if_neg, if_false]
      rcases ih b bs with ⟨heq, hall⟩ | ⟨w, hw, heq, hlt, hall⟩
      · left
        refine ⟨heq, ?_⟩
        intro j hj
        rcases List.mem_cons.mp hj with hj | hj
        · subst hj; exact le_of_not_lt hgt
        · exact hall j hj
      · right
        refine ⟨w, List.mem_cons_of_mem _ hw, heq, hlt, ?_⟩
        intro j hj
        rcases List.mem_cons.mp hj with hj | hj
        · subst hj; exact le_trans (le_of_not_lt hgt) (le_of_lt hlt)
        · exact hall j hj

/-- Claim C2 amended: find_menu_item implements a two-phase resolution, not the
claimed six-tier cascade.  Phase one returns the first exact
case-insensitive match immediately.  Otherwise one scoring pass assigns
matchScore (80 query-in-name, 70 name-in-query, 60/50 word-set inclusion,
partial overlap scaled to at most 40) and returns an item of maximal score
strictly above the threshold 20 (with no exact match and all scores at
most 20 the result is NotFound) — in particular there is no
keyword-category fallback tier. -/
theorem claim_C2 (items : List MenuItem) (item_name : String) :
    (∀ it, item_name ≠ "" →
      items.find? (fun i => pyLower i.name.data == pyStrip (pyLower item_name.data)) =
        some it →
      find_menu_item items item_name = some it) ∧
    (item_name ≠ "" →
      items.find? (fun i => pyLower i.name.data == pyStrip (pyLower item_name.data)) =
        none →
      (∀ it ∈ items,
        matchScore (pyLower it.name.data) (pyStrip (pyLower item_name.data)) ≤ 20) →
      find_menu_item items item_name = none) ∧
    (∀ it, item_name ≠ "" →
      items.find? (fun i => pyLower i.name.data == pyStrip (pyLower item_name.data)) =
        none →
      find_menu_item items item_name = some it →
      it ∈ items ∧
      20 < matchScore (pyLower it.name.data) (pyStrip (pyLower item_name.data)) ∧
      ∀ j ∈ items, matchScore (pyLower j.name.data) (pyStrip (pyLower item_name.data)) ≤
        matchScore (pyLower it.name.data) (pyStrip (pyLower item_name.data))) := by
  refine ⟨?_, ?_, ?_⟩
  · intro it h0 hf
    simp only [find_menu_item, if_neg h0, hf]
  · intro h0 hf hs
    simp only [find_menu_item, if_neg h0, hf]
    rcases scanBest_cases (pyStrip (pyLower item_name.data)) items none 20 with ⟨heq, -⟩ | ⟨w, hw, heq, hlt, -⟩
    · rw [heq]
    · exact absurd hlt (not_lt.mpr (hs w hw))
  · intro it h0 hf hit
    simp only [find_menu_item, if_neg h0, hf] at hit
    rcases scanBest_cases (pyStrip (pyLower item_name.data)) items none 20 with ⟨heq, -⟩ | ⟨w, hw, heq, hlt, hall⟩
    · rw [heq] at hit
      cases hit
    · rw [heq] at hit
      simp only [Option.some.injEq] at hit
      subst hit
      exact ⟨hw, hlt, hall⟩

/-- Claim C2 witness: the exact-match phase resolves ShackBurger. -/
theorem claim_C2_witness :
    find_menu_item FALLBACK_MENU "ShackBurger" =
      some ⟨"ShackBurger", 699/100, 500, "Burgers"⟩ :=
  (claim_C2 FALLBACK_MENU "ShackBurger").1 ⟨"ShackBurger", 699/100, 500, "Burgers"⟩
    (by decide) (by rfl)

theorem isSome_orElse {α : Type} (a : Option α) (f : Unit → Option α) :
    (a.orElse f).isSome = (a.isSome || (f ()).isSome) := by
  cases a <;> simp [Option.orElse]

theorem cascadeTier5_isSome_of {items : List MenuItem} {q : List Char}
    {b : String × List String} {c : MenuItem} {rest : List MenuItem}
    (hb : KEYWORD_BUCKETS.find? (fun bb => bb.2.any (fun kw => listSub kw.data q)) = some b)
    (hf : items.filter (fun it => b.2.any (fun kw => listSub kw.data (pyLower it.name.data))) =
      c :: rest) :
    (cascadeTier5 items q).isSome = true := by
  rw [cascadeTier5, hb]
  dsimp only
  rw [hf]
  dsimp only [bestBySim]
  split
  · rfl
  · rfl

/-- Claim C2 counterexample: on the fallback menu the query `burgers` is
resolved by the claimed six-tier cascade (its keyword-category fallback
bucket for burger applies), but find_menu_item returns NotFound — the code
has no such fallback tier, refuting the claim that find_menu_item
implements the cascade exactly. -/
theorem claim_C2_counterexample :
    find_menu_item FALLBACK_MENU "burgers" = none ∧
    (resolve_cascade_spec FALLBACK_MENU "burgers").isSome = true := by
  constructor
  · decide
  · have h5 : (cascadeTier5 FALLBACK_MENU (pyStrip (pyLower "burgers".data))).isSome = true :=
      @cascadeTier5_isSome_of FALLBACK_MENU (pyStrip (pyLower "burgers".data))
        ("burger", ["burger", "hamburger", "cheeseburger"])
        ⟨"ShackBurger", 699/100, 500, "Burgers"⟩
        [⟨"Cheeseburger", 649/100, 440, "Burgers"⟩,
          ⟨"Hamburger", 649/100, 370, "Burgers"⟩,
          ⟨"Avocado Bacon Burger", 949/100, 610, "Burgers"⟩,
          ⟨"Bacon Cheeseburger", 1149/100, 760, "Burgers"⟩]
        (by decide) (by rfl)
    simp only [resolve_cascade_spec, isSome_orElse]
    rw [h5]
    simp

/-- Claim C4 counterexample: the utterance `I want a SmokeShack` contains the
exact menu item name SmokeShack, yet the text-pattern stage extracts
nothing (SmokeShack ends in none of the hardcoded pattern suffixes and the
utterance has no trigger word or digit), so extract_order_items invokes
the LLM fallback stage — refuting the claim that every utterance
containing an exact menu item name is resolved by the text stage alone. -/
theorem claim_C4_counterexample :
    pyIn "SmokeShack" "I want a SmokeShack" = true ∧
    "SmokeShack" ∈ FALLBACK_MENU.map MenuItem.name ∧
    extract_order_items_from_text FALLBACK_MENU "I want a SmokeShack" = [] ∧
    (extract_order_items FALLBACK_MENU (fun _ => []) "I want a SmokeShack").2 = true := by
  have h : extract_order_items_from_text FALLBACK_MENU "I want a SmokeShack" = [] := by
    decide
  refine ⟨by decide, by decide, h, ?_⟩
  simp [extract_order_items, h]

/-- Claim C4 amended: extract_order_items invokes the LLM stage exactly when
the text-pattern stage returns an empty list, and otherwise returns the
text-stage result without invoking the LLM stage; the text stage does
resolve utterances matched by its hardcoded patterns — for example
`i would like a shackburger` yields ShackBurger from the text stage with
no LLM invocation — but not every utterance containing an exact menu item
name is handled by it (see the SmokeShack counterexample). -/
theorem claim_C4 :
    (∀ (menu : List MenuItem) (llm_stage : String → List EItem) (msg : String),
      ((extract_order_items menu llm_stage msg).2 = true ↔
        extract_order_items_from_text menu msg = []) ∧
      (extract_order_items_from_text menu msg = [] →
        extract_order_items menu llm_stage msg = (llm_stage msg, true)) ∧
      (extract_order_items_from_text menu msg ≠ [] →
        extract_order_items menu llm_stage msg =
          (extract_order_items_from_text menu msg, false))) ∧
    (∀ llm_stage : String → List EItem,
      extract_order_items FALLBACK_MENU llm_stage "i would like a shackburger" =
        ([⟨"ShackBurger", 1⟩], false)) := by
  constructor
  · intro menu llm_stage msg
    by_cases h : extract_order_items_from_text menu msg = []
    · refine ⟨?_, fun _ => ?_, fun hne => absurd h hne⟩ <;>
        simp [extract_order_items, h]
    · refine ⟨?_, fun he => absurd he h, fun _ => ?_⟩ <;>
        simp [extract_order_items, h]
  · intro llm_stage
    have h : extract_order_items_from_text FALLBACK_MENU "i would like a shackburger" =
        [⟨"ShackBurger", 1⟩] := by decide
    simp [extract_order_items, h]

/-- Claim C4 witness: on an utterance the text stage cannot parse, the combined
extractor consults the LLM stage. -/
theorem claim_C4_witness :
    extract_order_items FALLBACK_MENU (fun _ => []) "xyz" = ([], true) := by
  have h : extract_order_items_from_text FALLBACK_MENU "xyz" = [] := by decide
  exact (claim_C4.1 FALLBACK_MENU (fun _ => []) "xyz").2.1 h
